import Mathlib

/-!
Verification of `convert_captions.py` (CapCut auto-captions → SRT converter).

The script is embedded shallowly:

* JSON values are modelled by the mutual inductives `J` / `JList` / `JObj`
  (JSON numbers are modelled as integers, which covers every document shape
  the claims quantify over; mappings are explicit insertion-ordered key/value
  lists, matching the order-preserving Python `dict`).
* Python exceptions are modelled with `Except PyErr`; the `try/except`
  blocks of the source become explicit handlers.
* `json.loads` is an uninterpreted parameter `decode : String → Option J`
  (`none` = `json.JSONDecodeError`); concrete witnesses instantiate it with a
  finite table recording what `json.loads` returns on the strings involved.
* CPython float arithmetic in `parse_time_microseconds` is modelled over `ℚ`
  with an explicit IEEE-754 binary64 round-to-nearest-even operator
  (`roundDouble`) applied at the two places a rounding step occurs
  (the true division `t / 1000000` and the product `(ts % 1) * 1000`);
  `%` and `//` on floats are exact at the magnitudes considered, so they are
  modelled by exact rational `fmod`/`floor`.
-/

namespace CapCut

mutual
/-- JSON values (`dict` insertion order is explicit; numbers are integers). -/
inductive J where
  | null : J
  | bool (b : Bool) : J
  | num (n : Int) : J
  | str (s : String) : J
  | arr (xs : JList) : J
  | obj (kvs : JObj) : J

/-- Spine of a JSON array. -/
inductive JList where
  | nil : JList
  | cons (hd : J) (tl : JList) : JList

/-- Spine of a JSON object: ordered key/value pairs. -/
inductive JObj where
  | nil : JObj
  | cons (k : String) (v : J) (tl : JObj) : JObj
end

mutual
/-- Decidable structural equality on `J`. -/
def J.beq : J → J → Bool
  | .null, .null => true
  | .bool a, .bool b => a == b
  | .num a, .num b => a == b
  | .str a, .str b => a == b
  | .arr a, .arr b => JList.beq a b
  | .obj a, .obj b => JObj.beq a b
  | _, _ => false

def JList.beq : JList → JList → Bool
  | .nil, .nil => true
  | .cons a as, .cons b bs => J.beq a b && JList.beq as bs
  | _, _ => false

def JObj.beq : JObj → JObj → Bool
  | .nil, .nil => true
  | .cons k v tl, .cons k' v' tl' => k == k' && J.beq v v' && JObj.beq tl tl'
  | _, _ => false
end

/-- Build a `JList` from a Lean list (for readable document literals). -/
def jlist : List J → JList
  | [] => .nil
  | x :: xs => .cons x (jlist xs)

/-- Build a `JObj` from a Lean association list. -/
def jobj : List (String × J) → JObj
  | [] => .nil
  | (k, v) :: kvs => .cons k v (jobj kvs)

/-- Build a JSON array value from a Lean list. -/
def jarr (xs : List J) : J := .arr (jlist xs)

/-- Build a JSON object value from a Lean association list. -/
def jmap (kvs : List (String × J)) : J := .obj (jobj kvs)

/-- Elements of a `JList` as a Lean list. -/
def JList.toList : JList → List J
  | .nil => []
  | .cons x xs => x :: JList.toList xs

/-- Python truthiness of a JSON value (`bool(v)`). -/
def falsyJ : J → Bool
  | .null => true
  | .bool b => !b
  | .num n => n == 0
  | .str s => s == ""
  | .arr .nil => true
  | .arr (.cons _ _) => false
  | .obj .nil => true
  | .obj (.cons _ _ _) => false

/-- `k in d` for a Python dict. -/
def JObj.hasKey : JObj → String → Bool
  | .nil, _ => false
  | .cons k' _ tl, k => k' == k || JObj.hasKey tl k

/-- `d[k]` for a Python dict (first binding; JSON-decoded dicts have unique keys). -/
def JObj.lookup : JObj → String → Option J
  | .nil, _ => none
  | .cons k' v tl, k => if k' == k then some v else JObj.lookup tl k

/-- `v.isNull` — the sentinel `None` of the recursive search. -/
def J.isNull : J → Bool
  | .null => true
  | _ => false

/-- The key the script searches for. -/
def targetKey : String := "subtitle_fragment_info_list"

mutual
/-- `find_subtitle_fragments` (convert_captions.py:106-119): recursive search
returning the found value, with the Python `None` (here `J.null`) as the
not-found sentinel.  A dict that carries the key returns its value at once;
otherwise dict values, then list items, are searched in order and the first
result `is not None` bubbles up. -/
def findFrag : J → J
  | .obj kvs => if kvs.hasKey targetKey then (kvs.lookup targetKey).getD .null
                else findFragObj kvs
  | .arr xs => findFragList xs
  | _ => .null

def findFragObj : JObj → J
  | .nil => .null
  | .cons _ v tl =>
      let r := findFrag v
      if r.isNull then findFragObj tl else r

def findFragList : JList → J
  | .nil => .null
  | .cons x xs =>
      let r := findFrag x
      if r.isNull then findFragList xs else r
end

mutual
/-- Modelled from the Locator contract of the spec (spec §4.1): the value bound to
the first occurrence of the target key under depth-first traversal — direct
hit first, then dict values in insertion order, then list items in index
order — with `none` when the key occurs nowhere.  Used as the specification
side of the refinement comparison with `findFrag`. -/
def specFind : J → Option J
  | .obj kvs => if kvs.hasKey targetKey then kvs.lookup targetKey
                else specFindObj kvs
  | .arr xs => specFindList xs
  | _ => none

def specFindObj : JObj → Option J
  | .nil => none
  | .cons _ v tl =>
      match specFind v with
      | some r => some r
      | none => specFindObj tl

def specFindList : JList → Option J
  | .nil => none
  | .cons x xs =>
      match specFind x with
      | some r => some r
      | none => specFindList xs
end

mutual
/-- No binding of the target key anywhere in the document is JSON `null`. -/
def noNullBind : J → Bool
  | .obj kvs => noNullBindObj kvs
  | .arr xs => noNullBindList xs
  | _ => true

def noNullBindObj : JObj → Bool
  | .nil => true
  | .cons k v tl => (!(k == targetKey) || !v.isNull) && noNullBind v && noNullBindObj tl

def noNullBindList : JList → Bool
  | .nil => true
  | .cons x xs => noNullBind x && noNullBindList xs
end

mutual
/-- The target key occurs somewhere in the document. -/
def occursKey : J → Bool
  | .obj kvs => kvs.hasKey targetKey || occursKeyObj kvs
  | .arr xs => occursKeyList xs
  | _ => false

def occursKeyObj : JObj → Bool
  | .nil => false
  | .cons _ v tl => occursKey v || occursKeyObj tl

def occursKeyList : JList → Bool
  | .nil => false
  | .cons x xs => occursKey x || occursKeyList xs
end

/-! ## Python-level operations used by `extract_subtitle_text` and the
fragment loop.  Operations that can raise in Python return `Except PyErr`. -/

/-- The exception kinds relevant to the script (`json.JSONDecodeError`,
`KeyError`, `TypeError`); the source only ever matches on groups of them, so
their payloads are irrelevant. -/
inductive PyErr where
  | decodeError : PyErr
  | keyError : PyErr
  | typeError : PyErr
deriving DecidableEq

/-- `needle` occurs as a contiguous substring of `hay` (Python `in` on `str`). -/
def subChars : List Char → List Char → Bool
  | n, [] => n.isEmpty
  | n, c :: t => n.isPrefixOf (c :: t) || subChars n t

/-- Python `k in s` for strings: substring containment. -/
def subStr (needle hay : String) : Bool := subChars needle.data hay.data

/-- Python list membership `k in xs` where `k` is a string: `==` against each
element; only a `str` element with the same content compares equal. -/
def JList.hasStrMember : JList → String → Bool
  | .nil, _ => false
  | .cons (.str s) xs, k => s == k || JList.hasStrMember xs k
  | .cons _ xs, k => JList.hasStrMember xs k

/-- ASCII whitespace stripped by the Python method `str.strip()` (the claims only
involve ASCII text; Python additionally strips some Unicode spaces). -/
def pyWS (c : Char) : Bool :=
  c == ' ' || c == '\t' || c == '\n' || c == '\r' || c == '\x0b' || c == '\x0c'

/-- Python `s.strip()`: remove leading and trailing whitespace. -/
def pyStrip (s : String) : String :=
  String.mk (((s.data.dropWhile pyWS).reverse.dropWhile pyWS).reverse)

/-- Python `k in v` for a string `k`: dict key test, string substring test,
list membership test; `in` on `int`/`bool`/`None` raises `TypeError`. -/
def pyIn (k : String) : J → Except PyErr Bool
  | .obj kvs => .ok (kvs.hasKey k)
  | .str s => .ok (subStr k s)
  | .arr xs => .ok (xs.hasStrMember k)
  | _ => .error .typeError

/-- Python `v[k]` for a string `k`: dict lookup (`KeyError` when absent);
indexing a list or a string with a string, or a scalar at all, raises
`TypeError`. -/
def pyIndex (v : J) (k : String) : Except PyErr J :=
  match v with
  | .obj kvs =>
      match kvs.lookup k with
      | some r => .ok r
      | none => .error .keyError
  | .arr _ => .error .typeError
  | .str _ => .error .typeError
  | _ => .error .typeError

/-- Python `for x in v`: list elements, string characters (as 1-char strings),
dict keys (as strings); iteration over `int`/`bool`/`None` raises
`TypeError`. -/
def pyIter : J → Except PyErr (List J)
  | .arr xs => .ok xs.toList
  | .str s => .ok (s.data.map fun c => J.str (String.mk [c]))
  | .obj kvs => .ok (keyList kvs)
  | _ => .error .typeError
where
  /-- The keys of a dict, in insertion order, as JSON strings. -/
  keyList : JObj → List J
    | .nil => []
    | .cons k _ tl => J.str k :: keyList tl

/-- The body of the sentence loop (convert_captions.py:74-77): collect
`sentence["text"]` for every element for which `"text" in sentence` holds,
propagating any `TypeError` the two operations raise. -/
def collectTexts : List J → Except PyErr (List J)
  | [] => .ok []
  | x :: xs =>
      match pyIn "text" x with
      | .error e => .error e
      | .ok false => collectTexts xs
      | .ok true =>
          match pyIndex x "text" with
          | .error e => .error e
          | .ok t =>
              match collectTexts xs with
              | .error e => .error e
              | .ok ts => .ok (t :: ts)

/-- All collected values as Lean strings, provided each is a JSON string. -/
def strsOf : List J → Option (List String)
  | [] => some []
  | .str s :: xs => (strsOf xs).map (s :: ·)
  | _ :: _ => none

/-- Python `" ".join(sentences)`: `TypeError` when a member is not a string. -/
def joinStrs (ts : List J) : Except PyErr String :=
  match strsOf ts with
  | some ss => .ok (String.intercalate " " ss)
  | none => .error .typeError

/-- The part of `extract_subtitle_text` that runs after a successful
`json.loads`, i.e. the body of the `try` from line 72 on, with the trailing
`except (json.JSONDecodeError, KeyError, TypeError): return ""` applied by
`extractVal` below. -/
def extractFromCache (c : J) : Except PyErr String :=
  match pyIn "sentence_list" c with
  | .error e => .error e
  | .ok false => .ok ""
  | .ok true =>
      match pyIndex c "sentence_list" with
      | .error e => .error e
      | .ok sl =>
          if falsyJ sl then .ok ""
          else
            match pyIter sl with
            | .error e => .error e
            | .ok items =>
                match collectTexts items with
                | .error e => .error e
                | .ok ts => joinStrs ts

/-- `extract_subtitle_text` (convert_captions.py:55-83) applied to the raw
value of the `subtitle_cache_info` field.  `decode` stands for `json.loads`
on strings (`none` = `JSONDecodeError`); calling `json.loads` on a non-string
raises `TypeError`.  Every raised error is caught and turned into `""`. -/
def extractVal (decode : String → Option J) (v : J) : String :=
  if falsyJ v then ""
  else
    match v with
    | .str s =>
        match decode s with
        | none => ""
        | some c =>
            match extractFromCache c with
            | .ok r => r
            | .error _ => ""
    | _ => ""

/-! ## Time normalizer -/

/-- Zero-pad to two digits (Python `f"{n:02d}"`; negative values carry their
sign and are at least two characters wide already). -/
def pad2 (n : Int) : String :=
  if 0 ≤ n && n < 10 then "0" ++ toString n else toString n

/-- Zero-pad to three digits (Python `f"{n:03d}"` for the non-negative
millisecond component). -/
def pad3 (n : Int) : String :=
  if 0 ≤ n && n < 10 then "00" ++ toString n
  else if 0 ≤ n && n < 100 then "0" ++ toString n
  else toString n

/-- `parse_time_microseconds` (convert_captions.py:33-52) under exact real
arithmetic, the semantics the spec prescribes ("integer microseconds /
1,000,000 as real-valued division", floor throughout): for integer `t` the
four components collapse to integer floor divisions and remainders.
`Int.fdiv`/`Int.fmod` are floor-division and floor-remainder, matching
the Python `//` and `%`. -/
def parseTimeMicroseconds (t : Int) : String :=
  let hours := t.fdiv 3600000000
  let minutes := (t.fmod 3600000000).fdiv 60000000
  let seconds := (t.fmod 60000000).fdiv 1000000
  let milliseconds := (t.fmod 1000000).fdiv 1000
  pad2 hours ++ ":" ++ pad2 minutes ++ ":" ++ pad2 seconds ++ "," ++ pad3 milliseconds

/-- A non-negative rational as an unreduced numerator/denominator pair
(denominator positive by construction).  Used instead of `ℚ` so that every
operation is plain `Nat` arithmetic, which the kernel evaluates. -/
structure QPair where
  nu : Nat
  de : Nat
deriving DecidableEq

/-- `⌊q⌋` for a `QPair`. -/
def QPair.floorN (q : QPair) : Nat := q.nu / q.de

/-- Fuel-driven `⌊log₂ n⌋` on naturals (structural, so that concrete
evaluation goes through the kernel; fuel 128 covers all magnitudes used). -/
def log2f : Nat → Nat → Nat
  | 0, _ => 0
  | f + 1, n => if 2 ≤ n then log2f f (n / 2) + 1 else 0

/-- `q < 2 ^ e`, for an integer exponent `e`. -/
def QPair.ltPow2 (q : QPair) (e : Int) : Bool :=
  if 0 ≤ e then q.nu < q.de * 2 ^ e.toNat else q.nu * 2 ^ (-e).toNat < q.de

/-- The binade exponent of a positive `q`: the unique `e` with
`2 ^ e ≤ q < 2 ^ (e + 1)`.  With `d = ⌊log₂ nu⌋ - ⌊log₂ de⌋` one has
`2 ^ (d - 1) < q < 2 ^ (d + 1)`, so a single comparison fixes it. -/
def QPair.binade (q : QPair) : Int :=
  let d : Int := (log2f 128 q.nu : Int) - (log2f 128 q.de : Int)
  if q.ltPow2 d then d - 1 else d

/-- `q * 2 ^ k` for an integer exponent `k` (exact). -/
def QPair.mulPow2 (q : QPair) (k : Int) : QPair :=
  if 0 ≤ k then ⟨q.nu * 2 ^ k.toNat, q.de⟩ else ⟨q.nu, q.de * 2 ^ (-k).toNat⟩

/-- Round a non-negative rational to the nearest IEEE-754 binary64 value
(round-to-nearest, ties-to-even, 53-bit significand; the magnitudes involved
are far from overflow and underflow).  The significand `n` is obtained by
scaling `q` into `[2 ^ 52, 2 ^ 53)` and rounding the scaled value to an
integer, ties to even. -/
def roundDouble (q : QPair) : QPair :=
  if q.nu = 0 then ⟨0, 1⟩
  else
    let e := q.binade
    let m := q.mulPow2 (52 - e)
    let fl := m.nu / m.de
    let r := m.nu % m.de
    let n : Nat :=
      if 2 * r < m.de then fl
      else if m.de < 2 * r then fl + 1
      else if fl % 2 = 0 then fl else fl + 1
    QPair.mulPow2 ⟨n, 1⟩ (e - 52)

/-- `q / k` for a positive natural `k` (exact value; its floor is the value of
the Python float `//` at the magnitudes considered). -/
def QPair.divN (q : QPair) (k : Nat) : QPair := ⟨q.nu, q.de * k⟩

/-- `q % k`, the exact value of the CPython float `%` for a positive natural
modulus (float `fmod` never rounds: the remainder of two binary64 values is
itself representable). -/
def QPair.fmodN (q : QPair) (k : Nat) : QPair :=
  ⟨q.nu - k * (q.nu / (q.de * k)) * q.de, q.de⟩

/-- `q * k` for a natural `k` (exact; rounding is applied separately). -/
def QPair.mulN (q : QPair) (k : Nat) : QPair := ⟨q.nu * k, q.de⟩

/-- `parse_time_microseconds` under CPython binary64 semantics: the true
division `t / 1000000` and the product `(time_seconds % 1) * 1000` round to
the nearest double; `%` on floats is exact, and `//` followed by `int(...)`
is the exact mathematical floor at these magnitudes (the subtraction
`x - x % d` and the quotient `(x - x % d) / d` are exact whenever the integer
quotient is below `2 ^ 53`, which holds throughout the inputs considered
here). -/
def parseTimeFloat (t : Nat) : String :=
  let ts := roundDouble ⟨t, 1000000⟩
  let hours : Int := ((ts.divN 3600).floorN : Int)
  let minutes : Int := (((ts.fmodN 3600).divN 60).floorN : Int)
  let seconds : Int := ((ts.fmodN 60).floorN : Int)
  let milliseconds : Int := ((roundDouble ((ts.fmodN 1).mulN 1000)).floorN : Int)
  pad2 hours ++ ":" ++ pad2 minutes ++ ":" ++ pad2 seconds ++ "," ++ pad3 milliseconds

/-! ## Fragment loop, sorting, serialization (`convert_draft_info_to_srt`) -/

/-- The record appended to `subtitles_with_text` (convert_captions.py:133-137).
Python `bool` is an `int` subclass, so times are integers after `asInt?`. -/
structure Caption where
  start_time : Int
  end_time : Int
  text : String
deriving DecidableEq

/-- A JSON value as a Python integer, when it is one (`bool` counts: `True`
is `1` and `False` is `0` wherever an `int` is expected). -/
def J.asInt? : J → Option Int
  | .num n => some n
  | .bool b => some (if b then 1 else 0)
  | _ => none

/-- One iteration of the fragment loop (convert_captions.py:129-137):
`some cap` when the fragment contributes a caption, `none` when it is
silently skipped, `error` when an uncaught exception escapes the loop (a
missing `start_time`/`end_time` key raises `KeyError`; a non-integer time
raises `TypeError` in the later sort or time formatting, which this model
surfaces at collection — the observable result of `convert` is the same
generic-failure outcome either way). -/
def fragOut (decode : String → Option J) (fr : J) : Except PyErr (Option Caption) :=
  match pyIn "subtitle_cache_info" fr with
  | .error e => .error e
  | .ok false => .ok none
  | .ok true =>
      match pyIndex fr "subtitle_cache_info" with
      | .error e => .error e
      | .ok cv =>
          if falsyJ cv then .ok none
          else
            let text := extractVal decode cv
            if pyStrip text = "" then .ok none
            else
              match pyIndex fr "start_time" with
              | .error e => .error e
              | .ok st =>
                  match pyIndex fr "end_time" with
                  | .error e => .error e
                  | .ok et =>
                      match st.asInt?, et.asInt? with
                      | some si, some ei => .ok (some ⟨si, ei, text⟩)
                      | _, _ => .error .typeError

/-- The whole fragment loop: collect contributed captions in iteration order;
an escaping exception aborts the loop (and, further out, the whole run). -/
def processFrags (decode : String → Option J) : List J → Except PyErr (List Caption)
  | [] => .ok []
  | fr :: rest =>
      match fragOut decode fr with
      | .error e => .error e
      | .ok o =>
          match processFrags decode rest with
          | .error e => .error e
          | .ok caps =>
              .ok (match o with
                   | some c => c :: caps
                   | none => caps)

/-- Insert into a sorted-by-`start_time` list, before the first strictly
later element and after all earlier-or-equal ones. -/
def insertCap (c : Caption) : List Caption → List Caption
  | [] => [c]
  | d :: ds =>
      if c.start_time ≤ d.start_time then c :: d :: ds
      else d :: insertCap c ds

/-- `subtitles_with_text.sort(key=lambda x: x["start_time"])`
(convert_captions.py:140).  The list sort of Python is stable and ascending; a stable
ascending sort is extensionally unique, so this insertion sort computes
exactly the same list. -/
def sortCaps : List Caption → List Caption
  | [] => []
  | c :: cs => insertCap c (sortCaps cs)

/-- The SRT accumulation loop (convert_captions.py:143-151): starting at
index `i`, append `f"{i}\n"`, the time line, the text line and a blank
line for each caption. -/
def renderFrom (i : Nat) : List Caption → String
  | [] => ""
  | c :: cs =>
      toString i ++ "\n" ++
      parseTimeMicroseconds c.start_time ++ " --> " ++ parseTimeMicroseconds c.end_time ++ "\n" ++
      c.text ++ "\n" ++ "\n" ++
      renderFrom (i + 1) cs

/-- Modelled from the serializer contract of the spec (spec §4.4): one block per
caption — the 1-based index line, the `<start> --> <end>` line, the text
line, a blank line — concatenated in order.  Specification side of the
refinement comparison with `renderFrom`. -/
def specBlock (i : Nat) (c : Caption) : String :=
  toString i ++ "\n" ++
  parseTimeMicroseconds c.start_time ++ " --> " ++ parseTimeMicroseconds c.end_time ++ "\n" ++
  c.text ++ "\n" ++ "\n"

/-- Modelled from the spec (spec §4.4): number the sorted captions `1..N` and
concatenate their blocks in order. -/
def specRender (caps : List Caption) : String :=
  ((List.enumFrom 1 caps).map fun p => specBlock p.1 p.2).foldr (· ++ ·) ""

/-- The input side of `convert_draft_info_to_srt`: the file could not be
opened (`FileNotFoundError`), the top-level `json.load` failed
(`json.JSONDecodeError`), or a document was obtained. -/
inductive Inp where
  | fileNotFound : Inp
  | badJson : Inp
  | doc (d : J) : Inp

/-- The diagnostic printed by `convert_draft_info_to_srt`, one constructor
per distinct `print` path. -/
inductive Diag where
  | success : Diag
  | keyMissing : Diag
  | fileMissing : Diag
  | jsonError : Diag
  | generic : Diag
deriving DecidableEq

/-- `convert_draft_info_to_srt` (convert_captions.py:86-170): returns the
caption count, the rendered SRT text, and the diagnostic path taken.  Every
failure is caught by one of the three `except` clauses and becomes a normal
`(0, "")` return; no exception escapes the function. -/
def convert (decode : String → Option J) : Inp → Nat × String × Diag
  | .fileNotFound => (0, "", .fileMissing)
  | .badJson => (0, "", .jsonError)
  | .doc d =>
      let frs := findFrag d
      if falsyJ frs then (0, "", .keyMissing)
      else
        match pyIter frs with
        | .error _ => (0, "", .generic)
        | .ok items =>
            match processFrags decode items with
            | .error _ => (0, "", .generic)
            | .ok caps =>
                let sorted := sortCaps caps
                (sorted.length, renderFrom 1 sorted, .success)

/-! ## Prompt builder (`create_ai_prompt`) -/

/-- The fixed instruction block of `create_ai_prompt`
(convert_captions.py:21-28), byte for byte (three lines end in a space). -/
def basePrompt : String :=
  "Нужно перевести субтитры на английский язык \n" ++
  "1 Сохранять точное количество строк и оригинальные временные метки \n" ++
  "2 Использовать инструктивный, разговорный стиль с естественными английскими конструкциями \n" ++
  "3 Строго придерживаться терминологии\n" ++
  "\n" ++
  "В итоге должен получиться текст в таком же формате как и был\n" ++
  "\n"

/-- `create_ai_prompt` (convert_captions.py:11-30). -/
def createAiPrompt (srtContent : String) : String :=
  basePrompt ++ srtContent

/-! ## Claim-side helper predicates -/

/-- The fragment is a Python dict. -/
def isObjB : J → Bool
  | .obj _ => true
  | _ => false

/-- The fragment carries a truthy `subtitle_cache_info` whose decoded text is
non-empty after trimming — the "FragmentRecord with usable caption
text" (the filter of convert_captions.py:130-132). -/
def fragTextB (decode : String → Option J) : J → Bool
  | .obj kvs =>
      match kvs.lookup "subtitle_cache_info" with
      | none => false
      | some cv => !falsyJ cv && !(pyStrip (extractVal decode cv)).isEmpty
  | _ => false

/-- The fragment carries integer `start_time` and `end_time` fields. -/
def timesOkB : J → Bool
  | .obj kvs =>
      ((kvs.lookup "start_time").bind J.asInt?).isSome &&
      ((kvs.lookup "end_time").bind J.asInt?).isSome
  | _ => false

/-- The caption a well-formed fragment contributes, if any. -/
def capOf (decode : String → Option J) : J → Option Caption
  | .obj kvs =>
      match kvs.lookup "subtitle_cache_info" with
      | none => none
      | some cv =>
          if falsyJ cv then none
          else
            let text := extractVal decode cv
            if pyStrip text = "" then none
            else
              match (kvs.lookup "start_time").bind J.asInt?,
                    (kvs.lookup "end_time").bind J.asInt? with
              | some si, some ei => some ⟨si, ei, text⟩
              | _, _ => none
  | _ => none

/-- A finite stand-in for `json.loads`: look the string up in a table of
(source text, parsed value) pairs recording what `json.loads` returns. -/
def decodeTable (tbl : List (String × J)) (s : String) : Option J :=
  (tbl.find? fun p => p.1 == s).map Prod.snd

/-! ## Helper lemmas -/

theorem hasKey_eq_isSome_lookup : (kvs : JObj) → (k : String) →
    kvs.hasKey k = (kvs.lookup k).isSome
  | .nil, _ => rfl
  | .cons k' v tl, k => by
      by_cases h : k' == k
      · simp [JObj.hasKey, JObj.lookup, h]
      · simp [JObj.hasKey, JObj.lookup, h, hasKey_eq_isSome_lookup tl k]

theorem lookup_target_not_null : (kvs : JObj) → (v : J) →
    noNullBindObj kvs = true → kvs.lookup targetKey = some v →
    v.isNull = false
  | .nil, v, _, hl => absurd hl (by simp [JObj.lookup])
  | .cons k w tl, v, hnn, hl => by
      simp only [noNullBindObj, Bool.and_eq_true] at hnn
      obtain ⟨⟨h1, h2⟩, h3⟩ := hnn
      by_cases h : k == targetKey
      · simp [JObj.lookup, h] at hl
        subst hl
        simpa [h] using h1
      · simp [JObj.lookup, h] at hl
        exact lookup_target_not_null tl v h3 hl

mutual
theorem findFrag_null_of_no_occur : (d : J) → occursKey d = false → findFrag d = J.null
  | .null, _ => rfl
  | .bool _, _ => rfl
  | .num _, _ => rfl
  | .str _, _ => rfl
  | .arr xs, h => by
      simp only [occursKey] at h
      simpa [findFrag] using findFragList_null_of_no_occur xs h
  | .obj kvs, h => by
      simp only [occursKey, Bool.or_eq_false_iff] at h
      simp only [findFrag, h.1, Bool.false_eq_true, if_false]
      exact findFragObj_null_of_no_occur kvs h.2

theorem findFragObj_null_of_no_occur : (kvs : JObj) → occursKeyObj kvs = false → findFragObj kvs = J.null
  | .nil, _ => rfl
  | .cons k v tl, h => by
      simp only [occursKeyObj, Bool.or_eq_false_iff] at h
      have hv := findFrag_null_of_no_occur v h.1
      simp only [findFragObj, hv, J.isNull, if_true]
      exact findFragObj_null_of_no_occur tl h.2

theorem findFragList_null_of_no_occur : (xs : JList) → occursKeyList xs = false → findFragList xs = J.null
  | .nil, _ => rfl
  | .cons x xs, h => by
      simp only [occursKeyList, Bool.or_eq_false_iff] at h
      have hx := findFrag_null_of_no_occur x h.1
      simp only [findFragList, hx, J.isNull, if_true]
      exact findFragList_null_of_no_occur xs h.2
end

mutual
theorem findFrag_refines : (d : J) → noNullBind d = true →
    findFrag d = (specFind d).getD J.null ∧
      ∀ w, specFind d = some w → w.isNull = false
  | .null, _ => ⟨rfl, by intro w hw; exact absurd hw (by simp [specFind])⟩
  | .bool _, _ => ⟨rfl, by intro w hw; exact absurd hw (by simp [specFind])⟩
  | .num _, _ => ⟨rfl, by intro w hw; exact absurd hw (by simp [specFind])⟩
  | .str _, _ => ⟨rfl, by intro w hw; exact absurd hw (by simp [specFind])⟩
  | .arr xs, h => by
      simp only [noNullBind] at h
      have := findFragList_refines xs h
      simpa [findFrag, specFind] using this
  | .obj kvs, h => by
      simp only [noNullBind] at h
      by_cases hk : kvs.hasKey targetKey
      · have hsome : (kvs.lookup targetKey).isSome := by
          rw [← hasKey_eq_isSome_lookup]; exact hk
        rcases Option.isSome_iff_exists.mp hsome with ⟨v, hv⟩
        refine ⟨?_, ?_⟩
        · simp [findFrag, specFind, hk, hv]
        · intro w hw
          simp only [specFind, hk, if_true, hv] at hw
          exact lookup_target_not_null kvs w h (hv.trans hw)
      · have := findFragObj_refines kvs h
        simp only [findFrag, specFind, hk, Bool.false_eq_true, if_false]
        exact this

theorem findFragObj_refines : (kvs : JObj) → noNullBindObj kvs = true →
    findFragObj kvs = (specFindObj kvs).getD J.null ∧
      ∀ w, specFindObj kvs = some w → w.isNull = false
  | .nil, _ => ⟨rfl, by intro w hw; exact absurd hw (by simp [specFindObj])⟩
  | .cons k v tl, h => by
      simp only [noNullBindObj, Bool.and_eq_true] at h
      rcases h with ⟨⟨_, hv⟩, htl⟩
      have ihv := findFrag_refines v hv
      have ihtl := findFragObj_refines tl htl
      cases hs : specFind v with
      | some r =>
          have hr : r.isNull = false := ihv.2 r hs
          refine ⟨?_, ?_⟩
          · simp [findFragObj, specFindObj, hs, ihv.1, hr]
          · intro w hw
            simp only [specFindObj, hs, Option.some.injEq] at hw
            exact hw ▸ hr
      | none =>
          refine ⟨?_, ?_⟩
          · simp [findFragObj, specFindObj, hs, ihv.1, J.isNull, ihtl.1]
          · intro w hw
            simp only [specFindObj, hs] at hw
            exact ihtl.2 w hw

theorem findFragList_refines : (xs : JList) → noNullBindList xs = true →
    findFragList xs = (specFindList xs).getD J.null ∧
      ∀ w, specFindList xs = some w → w.isNull = false
  | .nil, _ => ⟨rfl, by intro w hw; exact absurd hw (by simp [specFindList])⟩
  | .cons x xs, h => by
      simp only [noNullBindList, Bool.and_eq_true] at h
      rcases h with ⟨hx, hxs⟩
      have ihx := findFrag_refines x hx
      have ihxs := findFragList_refines xs hxs
      cases hs : specFind x with
      | some r =>
          have hr : r.isNull = false := ihx.2 r hs
          refine ⟨?_, ?_⟩
          · simp [findFragList, specFindList, hs, ihx.1, hr]
          · intro w hw
            simp only [specFindList, hs, Option.some.injEq] at hw
            exact hw ▸ hr
      | none =>
          refine ⟨?_, ?_⟩
          · simp [findFragList, specFindList, hs, ihx.1, J.isNull, ihxs.1]
          · intro w hw
            simp only [specFindList, hs] at hw
            exact ihxs.2 w hw
end

/-! ## Claim C1 — the locator -/

/-- A document whose first (depth-first) occurrence of the key is bound to
JSON `null`, while a later sibling binds it to a list. -/
def docC1 : J :=
  jmap [("a", jmap [("subtitle_fragment_info_list", J.null)]),
        ("b", jmap [("subtitle_fragment_info_list", jarr [J.num 1])])]

/-- Claim C1, counterexample: the claim says the locator returns the value
bound to the first occurrence of the key in depth-first order and explores no
sibling branch after a match.  On `docC1` the first occurrence is bound to
`null`; because the recursion uses `None` itself as the not-found sentinel,
that match is dropped, the sibling branch is explored, and the second
binding is returned instead. -/
theorem claim_C1_counterexample :
    specFind docC1 = some J.null ∧
    findFrag docC1 = jarr [J.num 1] ∧
    jarr [J.num 1] ≠ J.null :=
  ⟨rfl, rfl, fun h => nomatch h⟩

/-- Claim C1, amended: on every document in which no binding of the key is
JSON `null`, the locator agrees with the specification locator `specFind`
(first occurrence in depth-first order: mapping direct hit first without
descending further, else mapping values in insertion order, then sequence
elements in index order, scalars never matching, the first match bubbling
up), returning `J.null` exactly on the no-occurrence documents. -/
theorem claim_C1_locator (d : J) (h : noNullBind d = true) :
    findFrag d = (specFind d).getD J.null ∧
    (occursKey d = false → findFrag d = J.null) :=
  ⟨(findFrag_refines d h).1, fun h2 => findFrag_null_of_no_occur d h2⟩

/-- A null-free document with the key nested under a mapping and a list. -/
def docC1w : J :=
  jmap [("head", J.str "x"),
        ("body", jarr [J.num 0,
                       jmap [("subtitle_fragment_info_list", jarr [J.num 7])]])]

/-- Witness for the amended claim C1 at a concrete document. -/
theorem claim_C1_witness :
    (noNullBind docC1w = true) ∧
    (findFrag docC1w = (specFind docC1w).getD J.null ∧
      (occursKey docC1w = false → findFrag docC1w = J.null)) :=
  ⟨by decide, claim_C1_locator docC1w (by decide)⟩

/-! ## Claim C3 — the time normalizer -/

/-- Claim C3, code-bug exhibit: at `t = 1001000` microseconds (1.001 s) the
claimed floor semantics give `00:00:01,001` and round-trip to
`⌊t / 1000⌋ = 1001` milliseconds, but the CPython float evaluation renders
`00:00:01,000`: the binary64 value of `1001000 / 1000000` is slightly below
`1.001`, so `int((time_seconds % 1) * 1000)` truncates to `0`. -/
theorem claim_C3_time_normalizer_bug :
    parseTimeFloat 1001000 = "00:00:01,000" ∧
    parseTimeMicroseconds 1001000 = "00:00:01,001" ∧
    parseTimeFloat 1001000 ≠ parseTimeMicroseconds 1001000 ∧
    (1001000 : Int).fdiv 1000 = 1001 :=
  ⟨by decide, by decide, by decide, by decide⟩

/-! ## Claim C7 — document-level failures -/

/-- Claim C7: an unreadable input file, malformed top-level JSON, and an
absent (or falsy-located) required key each make the conversion return the
empty result `(0, "")` with three pairwise distinct diagnostics, and every
such failure is a normal return of `convert`, not an escaping exception. -/
theorem claim_C7_document_failures (decode : String → Option J) :
    convert decode .fileNotFound = (0, "", Diag.fileMissing) ∧
    convert decode .badJson = (0, "", Diag.jsonError) ∧
    (∀ d : J, falsyJ (findFrag d) = true → convert decode (.doc d) = (0, "", Diag.keyMissing)) ∧
    (Diag.fileMissing ≠ Diag.jsonError ∧ Diag.fileMissing ≠ Diag.keyMissing ∧
      Diag.jsonError ≠ Diag.keyMissing) := by
  refine ⟨rfl, rfl, ?_, by decide, by decide, by decide⟩
  intro d h
  simp [convert, h]

/-- Witness for claim C7: a concrete document without the key. -/
theorem claim_C7_witness :
    convert (fun _ => none) (.doc (jmap [("x", J.num 3)])) = (0, "", Diag.keyMissing) :=
  (claim_C7_document_failures (fun _ => none)).2.2.1 (jmap [("x", J.num 3)]) (by decide)

/-! ## Claim C8 — the prompt builder -/

/-- Claim C8: the prompt builder returns exactly the fixed instruction block
concatenated with its input — the constant text is a prefix, the input is
recovered unchanged as the suffix, and nothing else is added. -/
theorem claim_C8_prompt_builder (s : String) :
    createAiPrompt s = basePrompt ++ s ∧
    (createAiPrompt s).data = basePrompt.data ++ s.data ∧
    basePrompt.data.isPrefixOf (createAiPrompt s).data = true ∧
    (createAiPrompt s).data.drop basePrompt.data.length = s.data := by
  refine ⟨rfl, String.data_append basePrompt s, ?_, ?_⟩
  · rw [show (createAiPrompt s).data = basePrompt.data ++ s.data from
      String.data_append basePrompt s, List.isPrefixOf_iff_prefix]
    exact List.prefix_append _ _
  · rw [show (createAiPrompt s).data = basePrompt.data ++ s.data from
      String.data_append basePrompt s]
    exact List.drop_left _ _

/-! ## Claim C10 — present-but-falsy key -/

/-- A document in which the key is present but bound to an empty sequence. -/
def docC10 : J := jmap [("meta", jmap [("subtitle_fragment_info_list", jarr [])])]

/-- Claim C10: when the located value of the key is falsy (empty sequence,
`null`, `0`, or empty string), the conversion reports the not-found
diagnostic and returns the empty result, and an absent key produces exactly
the same output — present-but-empty is indistinguishable from absent. -/
theorem claim_C10_present_but_falsy (decode : String → Option J) (d : J) :
    (falsyJ (findFrag d) = true → convert decode (.doc d) = (0, "", Diag.keyMissing)) ∧
    (occursKey d = false → convert decode (.doc d) = (0, "", Diag.keyMissing)) := by
  constructor
  · intro h
    simp [convert, h]
  · intro h
    have h2 := findFrag_null_of_no_occur d h
    simp [convert, h2, falsyJ]

/-- Witness for claim C10: the key bound to an empty list yields exactly the
output of a document lacking the key. -/
theorem claim_C10_witness :
    occursKey docC10 = true ∧
    convert (fun _ => none) (.doc docC10) = (0, "", Diag.keyMissing) ∧
    convert (fun _ => none) (.doc (jmap [("x", J.str "y")])) = (0, "", Diag.keyMissing) :=
  ⟨by decide,
   (claim_C10_present_but_falsy (fun _ => none) docC10).1 (by decide),
   (claim_C10_present_but_falsy (fun _ => none) (jmap [("x", J.str "y")])).2 (by decide)⟩

/-! ## Sorting and serialization lemmas -/

/-- Comparison key of the sort: ascending `start_time`. -/
def capLe (a b : Caption) : Prop := a.start_time ≤ b.start_time

theorem mem_insertCap (c x : Caption) : (l : List Caption) →
    x ∈ insertCap c l → x = c ∨ x ∈ l
  | [], h => by simpa [insertCap] using h
  | d :: ds, h => by
      by_cases hc : c.start_time ≤ d.start_time
      · rw [insertCap, if_pos hc] at h
        rcases List.mem_cons.mp h with rfl | h2
        · exact Or.inl rfl
        · exact Or.inr h2
      · rw [insertCap, if_neg hc] at h
        rcases List.mem_cons.mp h with rfl | h2
        · exact Or.inr (List.mem_cons_self _ _)
        · rcases mem_insertCap c x ds h2 with h3 | h3
          · exact Or.inl h3
          · exact Or.inr (List.mem_cons_of_mem _ h3)

theorem length_insertCap (c : Caption) : (l : List Caption) →
    (insertCap c l).length = l.length + 1
  | [] => rfl
  | d :: ds => by
      by_cases h : c.start_time ≤ d.start_time
      · simp [insertCap, h]
      · simp [insertCap, h, length_insertCap c ds]

theorem length_sortCaps : (l : List Caption) → (sortCaps l).length = l.length
  | [] => rfl
  | c :: cs => by simp [sortCaps, length_insertCap, length_sortCaps cs]

theorem sorted_insertCap (c : Caption) : (l : List Caption) →
    l.Pairwise capLe → (insertCap c l).Pairwise capLe
  | [], _ => by simp [insertCap, List.pairwise_singleton]
  | d :: ds, hp => by
      rcases List.pairwise_cons.mp hp with ⟨hd, hds⟩
      by_cases h : c.start_time ≤ d.start_time
      · rw [insertCap, if_pos h]
        refine List.Pairwise.cons ?_ hp
        intro x hx
        rcases List.mem_cons.mp hx with rfl | hx2
        · exact h
        · exact le_trans h (hd x hx2)
      · rw [insertCap, if_neg h]
        refine List.Pairwise.cons ?_ (sorted_insertCap c ds hds)
        intro x hx
        rcases mem_insertCap c x ds hx with rfl | hx2
        · exact le_of_not_le h
        · exact hd x hx2

theorem sorted_sortCaps : (l : List Caption) → (sortCaps l).Pairwise capLe
  | [] => List.Pairwise.nil
  | c :: cs => sorted_insertCap c (sortCaps cs) (sorted_sortCaps cs)

theorem isEmpty_false_of_ne {s : String} (h : s ≠ "") : s.isEmpty = false := by
  cases hh : s.isEmpty
  · rfl
  · exact absurd ((String.isEmpty_iff _).mp hh) h

theorem filter_insertCap (c : Caption) (k : Int) : (l : List Caption) →
    (insertCap c l).filter (fun a => a.start_time == k) =
      (if c.start_time == k then [c] else []) ++ l.filter (fun a => a.start_time == k)
  | [] => by
      by_cases hpc : c.start_time == k <;>
        simp [insertCap, List.filter_cons, hpc]
  | d :: ds => by
      by_cases h : c.start_time ≤ d.start_time
      · rw [insertCap, if_pos h]
        by_cases hpc : c.start_time == k <;> simp [List.filter_cons, hpc]
      · rw [insertCap, if_neg h]
        by_cases hpc : c.start_time == k
        · by_cases hpd : d.start_time == k
          · exact absurd (le_of_eq ((beq_iff_eq.mp hpc).trans (beq_iff_eq.mp hpd).symm)) h
          · simp [List.filter_cons, hpc, hpd, filter_insertCap c k ds]
        · by_cases hpd : d.start_time == k <;>
            simp [List.filter_cons, hpc, hpd, filter_insertCap c k ds]

theorem filter_sortCaps (k : Int) : (l : List Caption) →
    (sortCaps l).filter (fun a => a.start_time == k) =
      l.filter (fun a => a.start_time == k)
  | [] => rfl
  | c :: cs => by
      rw [sortCaps, filter_insertCap, filter_sortCaps k cs, List.filter_cons]
      by_cases hpc : (c.start_time == k) = true <;> simp [hpc]

theorem renderFrom_enumFrom : (caps : List Caption) → (i : Nat) →
    renderFrom i caps =
      ((List.enumFrom i caps).map fun p => specBlock p.1 p.2).foldr (· ++ ·) ""
  | [], _ => rfl
  | c :: cs, i => by
      have ih := renderFrom_enumFrom cs (i + 1)
      simp only [renderFrom, ih, List.enumFrom, List.map, List.foldr, specBlock]

theorem renderFrom_eq_specRender (caps : List Caption) :
    renderFrom 1 caps = specRender caps :=
  renderFrom_enumFrom caps 1

/-! ## Fragment-loop lemmas -/

theorem fragOut_eq_capOf (decode : String → Option J) (fr : J)
    (h1 : isObjB fr = true)
    (h2 : fragTextB decode fr = true → timesOkB fr = true) :
    fragOut decode fr = .ok (capOf decode fr) := by
  cases fr with
  | obj kvs =>
      simp only [fragOut, pyIn, hasKey_eq_isSome_lookup, capOf]
      cases hcv : kvs.lookup "subtitle_cache_info" with
      | none => simp
      | some cv =>
          simp only [hcv, Option.isSome_some, pyIndex]
          by_cases hf : falsyJ cv
          · simp [hf]
          · simp only [hf, Bool.false_eq_true, if_false]
            by_cases ht : pyStrip (extractVal decode cv) = ""
            · simp [ht]
            · have htx : fragTextB decode (.obj kvs) = true := by
                simp only [fragTextB, hcv, hf, Bool.not_false, Bool.true_and,
                  isEmpty_false_of_ne ht, Bool.not_false]
              have hok := h2 htx
              simp only [timesOkB, Bool.and_eq_true, Option.isSome_iff_exists] at hok
              rcases hok with ⟨⟨si, hsi⟩, ⟨ei, hei⟩⟩
              cases hst : kvs.lookup "start_time" with
              | none => rw [hst] at hsi; exact absurd hsi (by simp)
              | some st =>
                  cases het : kvs.lookup "end_time" with
                  | none => rw [het] at hei; exact absurd hei (by simp)
                  | some et =>
                      rw [hst] at hsi; rw [het] at hei
                      simp only [Option.some_bind] at hsi hei
                      simp [ht, hst, het, hsi, hei]
  | null => exact absurd h1 (by simp [isObjB])
  | bool b => exact absurd h1 (by simp [isObjB])
  | num n => exact absurd h1 (by simp [isObjB])
  | str s => exact absurd h1 (by simp [isObjB])
  | arr xs => exact absurd h1 (by simp [isObjB])

theorem capOf_isSome (decode : String → Option J) (fr : J)
    (h1 : isObjB fr = true)
    (h2 : fragTextB decode fr = true → timesOkB fr = true) :
    (capOf decode fr).isSome = fragTextB decode fr := by
  cases fr with
  | obj kvs =>
      simp only [capOf, fragTextB]
      cases hcv : kvs.lookup "subtitle_cache_info" with
      | none => simp
      | some cv =>
          by_cases hf : falsyJ cv
          · simp [hf]
          · simp only [hf, Bool.false_eq_true, if_false, Bool.not_false, Bool.true_and]
            by_cases ht : pyStrip (extractVal decode cv) = ""
            · simp [ht, String.isEmpty_iff]
            · have hie := isEmpty_false_of_ne ht
              have htx : fragTextB decode (.obj kvs) = true := by
                simp only [fragTextB, hcv, hf, Bool.not_false, Bool.true_and, hie]
              have hok := h2 htx
              simp only [timesOkB, Bool.and_eq_true, Option.isSome_iff_exists] at hok
              rcases hok with ⟨⟨si, hsi⟩, ⟨ei, hei⟩⟩
              cases hst : kvs.lookup "start_time" with
              | none => rw [hst] at hsi; exact absurd hsi (by simp)
              | some st =>
                  cases het : kvs.lookup "end_time" with
                  | none => rw [het] at hei; exact absurd hei (by simp)
                  | some et =>
                      rw [hst] at hsi; rw [het] at hei
                      simp only [Option.some_bind] at hsi hei
                      simp [ht, hst, het, hsi, hei, hie]
  | null => exact absurd h1 (by simp [isObjB])
  | bool b => exact absurd h1 (by simp [isObjB])
  | num n => exact absurd h1 (by simp [isObjB])
  | str s => exact absurd h1 (by simp [isObjB])
  | arr xs => exact absurd h1 (by simp [isObjB])

theorem processFrags_eq (decode : String → Option J) : (l : List J) →
    (∀ fr ∈ l, isObjB fr = true ∧ (fragTextB decode fr = true → timesOkB fr = true)) →
    processFrags decode l = .ok (l.filterMap (capOf decode))
  | [], _ => rfl
  | fr :: rest, h => by
      have hf := h fr (List.mem_cons_self fr rest)
      have ih := processFrags_eq decode rest (fun a ha => h a (List.mem_cons_of_mem fr ha))
      rw [processFrags, fragOut_eq_capOf decode fr hf.1 hf.2, ih]
      simp only [List.filterMap_cons]
      cases capOf decode fr <;> rfl

theorem length_filterMap_eq_countP {α β : Type} (f : α → Option β) (p : α → Bool) :
    (l : List α) → (∀ a ∈ l, (f a).isSome = p a) →
    (l.filterMap f).length = l.countP p
  | [], _ => rfl
  | a :: l, h => by
      have ha := h a (List.mem_cons_self a l)
      have ih := length_filterMap_eq_countP f p l (fun x hx => h x (List.mem_cons_of_mem a hx))
      cases hfa : f a with
      | none =>
          rw [hfa] at ha
          simp [List.filterMap_cons, List.countP_cons, hfa, ih, ← ha]
      | some b =>
          rw [hfa] at ha
          simp [List.filterMap_cons, List.countP_cons, hfa, ih, ← ha]

theorem processFrags_skip (decode : String → Option J) (fr : J)
    (h1 : isObjB fr = true) (h2 : fragTextB decode fr = false) :
    (l1 l2 : List J) →
    processFrags decode (l1 ++ fr :: l2) = processFrags decode (l1 ++ l2)
  | [], l2 => by
      have hnone : fragOut decode fr = .ok none := by
        have := fragOut_eq_capOf decode fr h1 (fun htx => absurd (h2 ▸ htx) (by simp))
        have hcap : capOf decode fr = none := by
          have hs := capOf_isSome decode fr h1 (fun htx => absurd (h2 ▸ htx) (by simp))
          rw [h2] at hs
          exact Option.not_isSome_iff_eq_none.mp (by simp [hs])
        rw [this, hcap]
      rw [List.nil_append, List.nil_append, processFrags, hnone]
      cases processFrags decode l2 <;> rfl
  | a :: t1, l2 => by
      rw [List.cons_append, List.cons_append, processFrags, processFrags,
          processFrags_skip decode fr h1 h2 t1 l2]

/-! ## Claim C4 — the serializer -/

/-- Claim C4: the serializer stable-sorts the captions ascending by
`start_time`, assigns indices `1..N` in sorted order, and the accumulated
output equals the specification rendering — one block per caption holding the
index line, the `<start> --> <end>` line built by the time normalizer, the
text line, and a blank line, with a trailing blank line after the final
block; an empty caption list renders as the empty string. -/
theorem claim_C4_serializer (caps : List Caption) :
    renderFrom 1 (sortCaps caps) = specRender (sortCaps caps) ∧
    (sortCaps caps).Pairwise capLe ∧
    (∀ k : Int, (sortCaps caps).filter (fun a => a.start_time == k) =
      caps.filter (fun a => a.start_time == k)) ∧
    (sortCaps caps).length = caps.length ∧
    (caps = [] → renderFrom 1 (sortCaps caps) = "") :=
  ⟨renderFrom_eq_specRender _, sorted_sortCaps _, fun k => filter_sortCaps k _,
   length_sortCaps _, fun h => by rw [h]; rfl⟩

/-- The caption of the specification scenario. -/
def capsHW : List Caption := [⟨1500000, 3250000, "Hello world"⟩]

/-- Witness for claim C4: the specification scenario caption renders as the
block from the spec, and the serializer contract holds at that input and at
the empty input. -/
theorem claim_C4_witness :
    renderFrom 1 (sortCaps capsHW) =
      "1\n00:00:01,500 --> 00:00:03,250\nHello world\n\n" ∧
    renderFrom 1 (sortCaps []) = "" ∧
    (renderFrom 1 (sortCaps capsHW) = specRender (sortCaps capsHW) ∧
      (sortCaps capsHW).Pairwise capLe ∧
      (∀ k : Int, (sortCaps capsHW).filter (fun a => a.start_time == k) =
        capsHW.filter (fun a => a.start_time == k)) ∧
      (sortCaps capsHW).length = capsHW.length ∧
      (capsHW = [] → renderFrom 1 (sortCaps capsHW) = "")) :=
  ⟨by decide, (claim_C4_serializer []).2.2.2.2 rfl, claim_C4_serializer capsHW⟩

/-! ## Claims C5 and C6 — fragment count, ordering, isolation -/

/-- A cache string whose `json.loads` image carries one sentence `Hi`. -/
def cacheHi : String := "\x7b\"sentence_list\":[\x7b\"text\":\"Hi\"\x7d]\x7d"

/-- `json.loads` on the strings involved in the C5/C6 scenarios. -/
def decHi : String → Option J :=
  decodeTable [(cacheHi, jmap [("sentence_list", jarr [jmap [("text", J.str "Hi")]])])]

/-- A complete fragment: times and a decodable cache. -/
def goodFr : J :=
  jmap [("start_time", J.num 0), ("end_time", J.num 1000000),
        ("subtitle_cache_info", J.str cacheHi)]

/-- A fragment with a perfectly decodable caption but no time fields. -/
def badFr : J := jmap [("subtitle_cache_info", J.str cacheHi)]

/-- Claim C5, counterexample: the claim says the output caption count always
equals the number of fragments whose decoded text is non-empty after
trimming.  A single fragment with usable text but no `start_time` key raises
`KeyError` at `fragment["start_time"]`, the outer handler turns the whole run
into `(0, "")`, and the count is `0` while one fragment has non-empty decoded
text. -/
theorem claim_C5_counterexample :
    ([badFr].countP (fragTextB decHi) = 1) ∧
    convert decHi (.doc (jmap [("subtitle_fragment_info_list", jarr [badFr])])) =
      (0, "", Diag.generic) :=
  ⟨by decide, by decide⟩

/-- Claim C5, amended: on fragment lists whose members are mappings, and in
which every fragment with usable caption text carries integer
`start_time`/`end_time` fields, the loop collects exactly the captions of the
usable fragments, the output count equals the number of fragments whose
decoded text is non-empty after trimming, and the sort is ascending by
`start_time` and stable — fragments with equal `start_time` keep their
discovery order (the sorted list restricted to any one key value equals the
collected list restricted to it). -/
theorem claim_C5_count_and_stability (decode : String → Option J) (l : List J)
    (h : ∀ fr ∈ l, isObjB fr = true ∧ (fragTextB decode fr = true → timesOkB fr = true)) :
    processFrags decode l = .ok (l.filterMap (capOf decode)) ∧
    (sortCaps (l.filterMap (capOf decode))).length = l.countP (fragTextB decode) ∧
    (sortCaps (l.filterMap (capOf decode))).Pairwise capLe ∧
    (∀ k : Int, (sortCaps (l.filterMap (capOf decode))).filter (fun a => a.start_time == k) =
      (l.filterMap (capOf decode)).filter (fun a => a.start_time == k)) :=
  ⟨processFrags_eq decode l h,
   by
     rw [length_sortCaps]
     exact length_filterMap_eq_countP _ _ l
       (fun a ha => capOf_isSome decode a (h a ha).1 (h a ha).2),
   sorted_sortCaps _,
   fun k => filter_sortCaps k _⟩

/-- Two fragments with the same `start_time` but different texts, in a fixed
insertion order (cache strings decoding to `Hi` and to `Yo`). -/
def cacheYo : String := "\x7b\"sentence_list\":[\x7b\"text\":\"Yo\"\x7d]\x7d"

/-- `json.loads` table for the stability witness. -/
def decHiYo : String → Option J :=
  decodeTable [(cacheHi, jmap [("sentence_list", jarr [jmap [("text", J.str "Hi")]])]),
               (cacheYo, jmap [("sentence_list", jarr [jmap [("text", J.str "Yo")]])])]

/-- Second fragment of the stability scenario: same `start_time` as `goodFr`. -/
def goodFr2 : J :=
  jmap [("start_time", J.num 0), ("end_time", J.num 2000000),
        ("subtitle_cache_info", J.str cacheYo)]

/-- Witness for the amended claim C5 at the two-equal-start-times scenario. -/
theorem claim_C5_witness :
    processFrags decHiYo [goodFr, goodFr2] =
        .ok ([goodFr, goodFr2].filterMap (capOf decHiYo)) ∧
    (sortCaps ([goodFr, goodFr2].filterMap (capOf decHiYo))).length =
        [goodFr, goodFr2].countP (fragTextB decHiYo) ∧
    (sortCaps ([goodFr, goodFr2].filterMap (capOf decHiYo))).Pairwise capLe ∧
    (∀ k : Int,
      (sortCaps ([goodFr, goodFr2].filterMap (capOf decHiYo))).filter
          (fun a => a.start_time == k) =
        ([goodFr, goodFr2].filterMap (capOf decHiYo)).filter (fun a => a.start_time == k)) :=
  claim_C5_count_and_stability decHiYo [goodFr, goodFr2] (by decide)

/-- Claim C6, counterexample: the claim says an error inside one fragment
never aborts the processing of its siblings.  Adding a sibling whose cache
decodes to usable text but which lacks `start_time` turns a run that produced
one caption into the empty generic-failure result: the sibling error aborts
the whole batch. -/
theorem claim_C6_counterexample :
    convert decHi (.doc (jmap [("subtitle_fragment_info_list", jarr [goodFr])])) =
      (1, "1\n00:00:00,000 --> 00:00:01,000\nHi\n\n", Diag.success) ∧
    convert decHi (.doc (jmap [("subtitle_fragment_info_list", jarr [goodFr, badFr])])) =
      (0, "", Diag.generic) :=
  ⟨by decide, by decide⟩

/-- Claim C6, amended: a fragment that is a mapping without usable caption
text (cache field missing, falsy, undecodable, or decoding to text that is
empty after trimming) is silently skipped and its presence anywhere in the
list never changes what the remaining fragments produce; the isolation fails
only for a fragment whose text is usable but whose `start_time`/`end_time`
are missing or non-integral, which aborts the whole batch. -/
theorem claim_C6_fragment_isolation (decode : String → Option J) (fr : J)
    (h1 : isObjB fr = true) (h2 : fragTextB decode fr = false)
    (l1 l2 : List J) :
    processFrags decode (l1 ++ fr :: l2) = processFrags decode (l1 ++ l2) :=
  processFrags_skip decode fr h1 h2 l1 l2

/-- Witness for the amended claim C6: dropping a cacheless fragment between
two complete fragments leaves the batch output unchanged. -/
theorem claim_C6_witness :
    processFrags decHiYo [goodFr, jmap [("note", J.str "x")], goodFr2] =
      processFrags decHiYo [goodFr, goodFr2] :=
  claim_C6_fragment_isolation decHiYo (jmap [("note", J.str "x")])
    (by decide) (by decide) [goodFr] [goodFr2]

/-! ## Extractor lemmas (claims C2 and C9) -/

/-- The value is a JSON string. -/
def isStrB : J → Bool
  | .str _ => true
  | _ => false

/-- The value is a JSON array. -/
def isArrB : J → Bool
  | .arr _ => true
  | _ => false

/-- The `text` attribute of every mapping element that carries a string one,
in list order — the caption words the claims describe. -/
def sentTexts (items : List J) : List String :=
  items.filterMap fun x =>
    match x with
    | .obj kvs =>
        match kvs.lookup "text" with
        | some (.str t) => some t
        | _ => none
    | _ => none

/-- An element on which `"text" in sentence` or `sentence["text"]` raises
`TypeError`: a scalar, a string containing `text` as a substring, or a list
containing the string `text` as a member. -/
def triggerB : J → Bool
  | .num _ => true
  | .bool _ => true
  | .null => true
  | .str s => subStr "text" s
  | .arr xs => xs.hasStrMember "text"
  | .obj _ => false

/-- A mapping element whose `text` attribute exists but is not a string
(its collected value later makes `" ".join` raise `TypeError`). -/
def badTextB : J → Bool
  | .obj kvs =>
      match kvs.lookup "text" with
      | some v => !isStrB v
      | none => false
  | _ => false

/-- The raw values the sentence loop collects, before the join. -/
def rawTexts (items : List J) : List J :=
  items.filterMap fun x =>
    match x with
    | .obj kvs => kvs.lookup "text"
    | _ => none

theorem collectTexts_no_trigger : (items : List J) →
    (∀ x ∈ items, triggerB x = false) →
    collectTexts items = .ok (rawTexts items)
  | [], _ => rfl
  | x :: items, h => by
      have hx := h x (List.mem_cons_self x items)
      have ih := collectTexts_no_trigger items (fun a ha => h a (List.mem_cons_of_mem x ha))
      cases x with
      | null => exact absurd hx (by simp [triggerB])
      | bool b => exact absurd hx (by simp [triggerB])
      | num n => exact absurd hx (by simp [triggerB])
      | str s =>
          simp only [triggerB] at hx
          simp [collectTexts, pyIn, hx, ih, rawTexts, List.filterMap_cons]
      | arr xs =>
          simp only [triggerB] at hx
          simp [collectTexts, pyIn, hx, ih, rawTexts, List.filterMap_cons]
      | obj kvs =>
          simp only [collectTexts, pyIn, hasKey_eq_isSome_lookup]
          cases hl : kvs.lookup "text" with
          | none => simp [ih, rawTexts, List.filterMap_cons, hl]
          | some v =>
              simp only [hl, Option.isSome_some, pyIndex, ih]
              simp [rawTexts, List.filterMap_cons, hl]

theorem collectTexts_trigger : (items : List J) →
    items.any triggerB = true →
    ∃ e, collectTexts items = .error e
  | [], h => absurd h (by simp)
  | x :: items, h => by
      by_cases hx : triggerB x = true
      · cases x with
        | null => exact ⟨.typeError, rfl⟩
        | bool b => exact ⟨.typeError, rfl⟩
        | num n => exact ⟨.typeError, rfl⟩
        | str s =>
            simp only [triggerB] at hx
            exact ⟨.typeError, by simp [collectTexts, pyIn, hx, pyIndex]⟩
        | arr xs =>
            simp only [triggerB] at hx
            exact ⟨.typeError, by simp [collectTexts, pyIn, hx, pyIndex]⟩
        | obj kvs => exact absurd hx (by simp [triggerB])
      · have hrest : items.any triggerB = true := by
          rcases List.any_eq_true.mp h with ⟨a, ha, hta⟩
          rcases List.mem_cons.mp ha with rfl | ha2
          · exact absurd hta hx
          · exact List.any_eq_true.mpr ⟨a, ha2, hta⟩
        rcases collectTexts_trigger items hrest with ⟨e, he⟩
        cases x with
        | null => exact absurd rfl hx
        | bool b => exact absurd rfl hx
        | num n => exact absurd rfl hx
        | str s =>
            have hs : subStr "text" s = false := by
              cases hss : subStr "text" s
              · rfl
              · exact absurd (by simp [triggerB, hss]) hx
            exact ⟨e, by simp [collectTexts, pyIn, hs, he]⟩
        | arr xs =>
            have hs : xs.hasStrMember "text" = false := by
              cases hss : xs.hasStrMember "text"
              · rfl
              · exact absurd (by simp [triggerB, hss]) hx
            exact ⟨e, by simp [collectTexts, pyIn, hs, he]⟩
        | obj kvs =>
            cases hl : kvs.lookup "text" with
            | none =>
                exact ⟨e, by
                  simp [collectTexts, pyIn, hasKey_eq_isSome_lookup, hl, he]⟩
            | some v =>
                exact ⟨e, by
                  simp [collectTexts, pyIn, hasKey_eq_isSome_lookup, hl, pyIndex, he]⟩

theorem collectTexts_strs : (items : List J) →
    (∀ x ∈ items, isStrB x = true) →
    collectTexts items = .ok [] ∨ collectTexts items = .error PyErr.typeError
  | [], _ => Or.inl rfl
  | x :: items, h => by
      have hx := h x (List.mem_cons_self x items)
      have ih := collectTexts_strs items (fun a ha => h a (List.mem_cons_of_mem x ha))
      cases x with
      | str s =>
          cases hss : subStr "text" s
          · rcases ih with ih | ih
            · exact Or.inl (by simp [collectTexts, pyIn, hss, ih])
            · exact Or.inr (by simp [collectTexts, pyIn, hss, ih])
          · exact Or.inr (by simp [collectTexts, pyIn, hss, pyIndex])
      | null => exact absurd hx (by simp [isStrB])
      | bool b => exact absurd hx (by simp [isStrB])
      | num n => exact absurd hx (by simp [isStrB])
      | arr xs => exact absurd hx (by simp [isStrB])
      | obj kvs => exact absurd hx (by simp [isStrB])

theorem strsOf_eq_none : (ts : List J) → (v : J) → v ∈ ts → isStrB v = false →
    strsOf ts = none
  | [], v, hv, _ => absurd hv (List.not_mem_nil v)
  | t :: ts, v, hv, hns => by
      rcases List.mem_cons.mp hv with rfl | hv2
      · cases v with
        | str s => exact absurd hns (by simp [isStrB])
        | null => rfl
        | bool b => rfl
        | num n => rfl
        | arr xs => rfl
        | obj kvs => rfl
      · cases t with
        | str s => simp [strsOf, strsOf_eq_none ts v hv2 hns]
        | null => rfl
        | bool b => rfl
        | num n => rfl
        | arr xs => rfl
        | obj kvs => rfl

theorem strsOf_rawTexts : (items : List J) →
    (∀ x ∈ items, badTextB x = false) →
    strsOf (rawTexts items) = some (sentTexts items)
  | [], _ => rfl
  | x :: items, h => by
      have hx := h x (List.mem_cons_self x items)
      have ih := strsOf_rawTexts items (fun a ha => h a (List.mem_cons_of_mem x ha))
      cases x with
      | obj kvs =>
          cases hl : kvs.lookup "text" with
          | none => simpa [rawTexts, sentTexts, List.filterMap_cons, hl] using ih
          | some v =>
              cases v with
              | str t =>
                  simpa [rawTexts, sentTexts, List.filterMap_cons, hl, strsOf] using ih
              | null => exact absurd hx (by simp [badTextB, hl, isStrB])
              | bool b => exact absurd hx (by simp [badTextB, hl, isStrB])
              | num n => exact absurd hx (by simp [badTextB, hl, isStrB])
              | arr xs => exact absurd hx (by simp [badTextB, hl, isStrB])
              | obj kvs2 => exact absurd hx (by simp [badTextB, hl, isStrB])
      | null => simpa [rawTexts, sentTexts, List.filterMap_cons] using ih
      | bool b => simpa [rawTexts, sentTexts, List.filterMap_cons] using ih
      | num n => simpa [rawTexts, sentTexts, List.filterMap_cons] using ih
      | str s => simpa [rawTexts, sentTexts, List.filterMap_cons] using ih
      | arr xs => simpa [rawTexts, sentTexts, List.filterMap_cons] using ih

/-- The benign evaluation of the extractor on a decodable cache: mapping
elements contribute their string `text` attributes, everything else is
skipped, and the words are joined with single spaces. -/
theorem extractStr_benign (decode : String → Option J) (s : String) (kvs : JObj)
    (xs : JList) (hs : s ≠ "") (hd : decode s = some (.obj kvs))
    (hl : kvs.lookup "sentence_list" = some (.arr xs))
    (hb : ∀ x ∈ xs.toList, triggerB x = false ∧ badTextB x = false) :
    extractVal decode (.str s) = String.intercalate " " (sentTexts xs.toList) := by
  have hfs : falsyJ (.str s) = false := by simpa [falsyJ] using hs
  have hct := collectTexts_no_trigger xs.toList (fun a ha => (hb a ha).1)
  have hso := strsOf_rawTexts xs.toList (fun a ha => (hb a ha).2)
  cases xs with
  | nil =>
      simp only [extractVal, hd, extractFromCache, pyIn, hasKey_eq_isSome_lookup, hl,
        Option.isSome_some, pyIndex, falsyJ, if_true, ite_self]
      rfl
  | cons x tl =>
      simp [extractVal, hfs, hs, hd, extractFromCache, pyIn, hasKey_eq_isSome_lookup, hl,
        pyIndex, falsyJ, pyIter, hct, joinStrs, hso]

theorem keyList_strs : (kvs : JObj) → ∀ x ∈ pyIter.keyList kvs, isStrB x = true
  | .nil, x, hx => absurd hx (List.not_mem_nil x)
  | .cons k v tl, x, hx => by
      rcases List.mem_cons.mp hx with rfl | hx2
      · rfl
      · exact keyList_strs tl x hx2

theorem charItems_strs (s : String) :
    ∀ x ∈ s.data.map (fun c => J.str (String.mk [c])), isStrB x = true := by
  intro x hx
  rcases List.mem_map.mp hx with ⟨c, _, rfl⟩
  rfl

/-- A decoded cache that is not a mapping collapses to the empty string. -/
theorem extractVal_nonobj (decode : String → Option J) (s : String) (c : J)
    (hd : decode s = some c) (hno : isObjB c = false) :
    extractVal decode (.str s) = "" := by
  by_cases hs : s = ""
  · simp [extractVal, falsyJ, hs]
  · cases c with
    | obj kvs => exact absurd hno (by simp [isObjB])
    | null => simp [extractVal, falsyJ, hs, hd, extractFromCache, pyIn]
    | bool b => simp [extractVal, falsyJ, hs, hd, extractFromCache, pyIn]
    | num n => simp [extractVal, falsyJ, hs, hd, extractFromCache, pyIn]
    | str s2 =>
        cases hss : subStr "sentence_list" s2 <;>
          simp [extractVal, falsyJ, hs, hd, extractFromCache, pyIn, hss, pyIndex]
    | arr xs =>
        cases hss : xs.hasStrMember "sentence_list" <;>
          simp [extractVal, falsyJ, hs, hd, extractFromCache, pyIn, hss, pyIndex]

/-- A `sentence_list` value that is not a list collapses to the empty
string (falsy values short-circuit; scalars fail to iterate; strings iterate
into single characters and dicts into their keys, none of which contributes
a sentence). -/
theorem extractVal_obj_nonarr (decode : String → Option J) (s : String)
    (kvs : JObj) (sl : J) (hs : s ≠ "") (hd : decode s = some (.obj kvs))
    (hl : kvs.lookup "sentence_list" = some sl) (hna : isArrB sl = false) :
    extractVal decode (.str s) = "" := by
  cases sl with
  | arr xs => exact absurd hna (by simp [isArrB])
  | null =>
      simp [extractVal, falsyJ, hs, hd, extractFromCache, pyIn,
        hasKey_eq_isSome_lookup, hl, pyIndex]
  | bool b =>
      cases b with
      | false =>
          simp [extractVal, falsyJ, hs, hd, extractFromCache, pyIn,
            hasKey_eq_isSome_lookup, hl, pyIndex]
      | true =>
          simp [extractVal, falsyJ, hs, hd, extractFromCache, pyIn,
            hasKey_eq_isSome_lookup, hl, pyIndex, pyIter]
  | num n =>
      by_cases hn : n = 0
      · simp [extractVal, falsyJ, hs, hd, extractFromCache, pyIn,
          hasKey_eq_isSome_lookup, hl, pyIndex, hn]
      · simp [extractVal, falsyJ, hs, hd, extractFromCache, pyIn,
          hasKey_eq_isSome_lookup, hl, pyIndex, hn, pyIter]
  | str s2 =>
      by_cases hs2 : s2 = ""
      · simp [extractVal, falsyJ, hs, hd, extractFromCache, pyIn,
          hasKey_eq_isSome_lookup, hl, pyIndex, hs2]
      · rcases collectTexts_strs (s2.data.map fun c => J.str (String.mk [c]))
            (charItems_strs s2) with hcol | hcol <;>
          simp [extractVal, falsyJ, hs, hd, extractFromCache, pyIn,
            hasKey_eq_isSome_lookup, hl, pyIndex, pyIter, hs2, hcol, joinStrs, strsOf,
            String.intercalate]
  | obj kvs2 =>
      cases kvs2 with
      | nil =>
          simp [extractVal, falsyJ, hs, hd, extractFromCache, pyIn,
            hasKey_eq_isSome_lookup, hl, pyIndex]
      | cons k v tl =>
          rcases collectTexts_strs (pyIter.keyList (.cons k v tl))
              (keyList_strs _) with hcol | hcol <;>
            simp [extractVal, falsyJ, hs, hd, extractFromCache, pyIn,
              hasKey_eq_isSome_lookup, hl, pyIndex, pyIter, hcol, joinStrs, strsOf,
              String.intercalate]

/-- A sentence list containing an element on which the membership test or
the indexing raises collapses the whole extraction to the empty string. -/
theorem extractVal_trigger (decode : String → Option J) (s : String)
    (kvs : JObj) (xs : JList) (hs : s ≠ "") (hd : decode s = some (.obj kvs))
    (hl : kvs.lookup "sentence_list" = some (.arr xs))
    (ht : xs.toList.any triggerB = true) :
    extractVal decode (.str s) = "" := by
  rcases collectTexts_trigger xs.toList ht with ⟨e, he⟩
  cases xs with
  | nil => exact absurd ht (by simp [JList.toList])
  | cons x tl =>
      simp [extractVal, falsyJ, hs, hd, extractFromCache, pyIn,
        hasKey_eq_isSome_lookup, hl, pyIndex, pyIter, he]

/-- A collected `text` value that is not a string makes the final join
raise, collapsing the whole extraction to the empty string. -/
theorem extractVal_badtext (decode : String → Option J) (s : String)
    (kvs : JObj) (xs : JList) (hs : s ≠ "") (hd : decode s = some (.obj kvs))
    (hl : kvs.lookup "sentence_list" = some (.arr xs))
    (hnt : ∀ x ∈ xs.toList, triggerB x = false)
    (hbad : ∃ x ∈ xs.toList, badTextB x = true) :
    extractVal decode (.str s) = "" := by
  have hct := collectTexts_no_trigger xs.toList hnt
  rcases hbad with ⟨x, hx, hbx⟩
  obtain ⟨kvs2, rfl, v, hv, hnsv⟩ :
      ∃ kvs2, x = J.obj kvs2 ∧ ∃ v, kvs2.lookup "text" = some v ∧ isStrB v = false := by
    cases x with
    | obj kvs2 =>
        refine ⟨kvs2, rfl, ?_⟩
        cases hlv : kvs2.lookup "text" with
        | none => exact absurd hbx (by simp [badTextB, hlv])
        | some v =>
            refine ⟨v, rfl, ?_⟩
            cases hsv : isStrB v
            · rfl
            · exact absurd hbx (by simp [badTextB, hlv, hsv])
    | null => exact absurd hbx (by simp [badTextB])
    | bool b => exact absurd hbx (by simp [badTextB])
    | num n => exact absurd hbx (by simp [badTextB])
    | str s2 => exact absurd hbx (by simp [badTextB])
    | arr l => exact absurd hbx (by simp [badTextB])
  have hmem : v ∈ rawTexts xs.toList :=
    List.mem_filterMap.mpr ⟨J.obj kvs2, hx, by simpa using hv⟩
  have hnone := strsOf_eq_none (rawTexts xs.toList) v hmem hnsv
  cases xs with
  | nil => exact absurd hx (by simp [JList.toList])
  | cons y tl =>
      simp [extractVal, falsyJ, hs, hd, extractFromCache, pyIn,
        hasKey_eq_isSome_lookup, hl, pyIndex, pyIter, hct, joinStrs, hnone]

/-! ## Claim C2 — the fragment extractor -/

/-- Claim C2: per fragment, extraction signals no-caption (the empty string,
or a skip of the fragment) and never raises, in exactly these cases — cache
field missing or falsy, JSON decode failure, decoded mapping without the
`sentence_list` key, a falsy `sentence_list` value, or caption text that is
empty after trimming; otherwise the caption is the `text` attribute of every
sentence element that has one, elements lacking it ignored, joined with
single spaces. -/
theorem claim_C2_extractor (decode : String → Option J) :
    (∀ v : J, falsyJ v = true → extractVal decode v = "") ∧
    (∀ s, decode s = none → extractVal decode (.str s) = "") ∧
    (∀ s kvs, s ≠ "" → decode s = some (.obj kvs) →
      kvs.hasKey "sentence_list" = false → extractVal decode (.str s) = "") ∧
    (∀ s kvs sl, s ≠ "" → decode s = some (.obj kvs) →
      kvs.lookup "sentence_list" = some sl → falsyJ sl = true →
      extractVal decode (.str s) = "") ∧
    (∀ s kvs xs, s ≠ "" → decode s = some (.obj kvs) →
      kvs.lookup "sentence_list" = some (.arr xs) → xs ≠ JList.nil →
      (∀ x ∈ xs.toList, isObjB x = true ∧ badTextB x = false) →
      extractVal decode (.str s) = String.intercalate " " (sentTexts xs.toList)) ∧
    (∀ kvs, JObj.hasKey kvs "subtitle_cache_info" = false →
      fragOut decode (.obj kvs) = .ok none) ∧
    (∀ kvs cv, kvs.lookup "subtitle_cache_info" = some cv → falsyJ cv = true →
      fragOut decode (.obj kvs) = .ok none) ∧
    (∀ kvs cv, kvs.lookup "subtitle_cache_info" = some cv → falsyJ cv = false →
      pyStrip (extractVal decode cv) = "" → fragOut decode (.obj kvs) = .ok none) := by
  refine ⟨?_, ?_, ?_, ?_, ?_, ?_, ?_, ?_⟩
  · intro v h
    simp [extractVal, h]
  · intro s hd
    by_cases hs : s = "" <;> simp [extractVal, falsyJ, hs, hd]
  · intro s kvs hs hd hk
    simp [extractVal, falsyJ, hs, hd, extractFromCache, pyIn, hk]
  · intro s kvs sl hs hd hl hf
    have hfs : falsyJ (J.str s) = false := by simp [falsyJ, hs]
    simp [extractVal, hfs, hd, extractFromCache, pyIn,
      hasKey_eq_isSome_lookup, hl, pyIndex, hf]
  · intro s kvs xs hs hd hl _ hb
    refine extractStr_benign decode s kvs xs hs hd hl ?_
    intro x hx
    rcases hb x hx with ⟨hobj, hbad⟩
    cases x with
    | obj kvs2 => exact ⟨rfl, hbad⟩
    | null => exact absurd hobj (by simp [isObjB])
    | bool b => exact absurd hobj (by simp [isObjB])
    | num n => exact absurd hobj (by simp [isObjB])
    | str s2 => exact absurd hobj (by simp [isObjB])
    | arr l => exact absurd hobj (by simp [isObjB])
  · intro kvs hk
    simp [fragOut, pyIn, hk]
  · intro kvs cv hcv hf
    simp [fragOut, pyIn, hasKey_eq_isSome_lookup, hcv, pyIndex, hf]
  · intro kvs cv hcv hf ht
    simp [fragOut, pyIn, hasKey_eq_isSome_lookup, hcv, pyIndex, hf, ht]

/-- The cache string of the specification scenario and its `json.loads`
image. -/
def cacheHW : String :=
  "\x7b\"sentence_list\":[\x7b\"text\":\"Hello\"\x7d,\x7b\"text\":\"world\"\x7d]\x7d"

/-- Sentence list of the specification scenario. -/
def slHW : JList :=
  jlist [jmap [("text", J.str "Hello")], jmap [("text", J.str "world")]]

/-- `json.loads` on the scenario cache string. -/
def decHW : String → Option J :=
  decodeTable [(cacheHW, jmap [("sentence_list", J.arr slHW)])]

/-- Witness for claim C2: the scenario cache decodes to `Hello world`, and a
decode failure yields the no-caption signal. -/
theorem claim_C2_witness :
    extractVal decHW (J.str cacheHW) = String.intercalate " " (sentTexts slHW.toList) ∧
    String.intercalate " " (sentTexts slHW.toList) = "Hello world" ∧
    extractVal decHW (J.str "nonsense") = "" :=
  ⟨(claim_C2_extractor decHW).2.2.2.2.1 cacheHW (jobj [("sentence_list", J.arr slHW)])
      slHW (by decide) rfl rfl (fun h => nomatch h) (by decide),
   by decide,
   (claim_C2_extractor decHW).2.1 "nonsense" rfl⟩

/-! ## Claim C9 — extractor totality over arbitrary decoded values -/

/-- The cache string of the counterexample and its `json.loads` image: a
sentence list holding a non-mapping element followed by a usable mapping. -/
def cacheMix : String := "\x7b\"sentence_list\":[\"abc\",\x7b\"text\":\"hi\"\x7d]\x7d"

/-- `json.loads` on the counterexample cache string. -/
def decMix : String → Option J :=
  decodeTable [(cacheMix, jmap [("sentence_list",
    jarr [J.str "abc", jmap [("text", J.str "hi")]])])]

/-- Claim C9, counterexample: the claim says every anomaly — including
sentence elements that are not mappings — collapses the result to the empty
string.  A sentence list holding the non-mapping element `"abc"` next to a
usable mapping yields `"hi"`, not the empty string: the non-mapping element
is merely skipped. -/
theorem claim_C9_counterexample :
    (J.str "abc") ∈ (jlist [J.str "abc", jmap [("text", J.str "hi")]]).toList ∧
    isObjB (J.str "abc") = false ∧
    extractVal decMix (J.str cacheMix) = "hi" ∧
    ("hi" : String) ≠ "" :=
  ⟨List.mem_cons_self _ _, rfl, by decide, by decide⟩

/-- Claim C9, amended: the extractor is total — every anomalous input
produces a string, never an escaping exception — and collapses to the empty
string on: a non-string cache value, a decode failure, a non-mapping decode
result, a non-list `sentence_list` value, a sentence element on which the
membership test or indexing raises (scalars, strings containing `text`,
lists containing the member `text`), and a collected `text` value that is
not a string; a non-mapping element on which the membership test is false is
skipped individually, and the remaining mapping elements still produce the
space-joined caption. -/
theorem claim_C9_extractor_totality (decode : String → Option J) :
    (∀ v : J, isStrB v = false → extractVal decode v = "") ∧
    (∀ s, decode s = none → extractVal decode (.str s) = "") ∧
    (∀ s c, s ≠ "" → decode s = some c → isObjB c = false →
      extractVal decode (.str s) = "") ∧
    (∀ s kvs sl, s ≠ "" → decode s = some (.obj kvs) →
      kvs.lookup "sentence_list" = some sl → isArrB sl = false →
      extractVal decode (.str s) = "") ∧
    (∀ s kvs xs, s ≠ "" → decode s = some (.obj kvs) →
      kvs.lookup "sentence_list" = some (.arr xs) →
      xs.toList.any triggerB = true → extractVal decode (.str s) = "") ∧
    (∀ s kvs xs, s ≠ "" → decode s = some (.obj kvs) →
      kvs.lookup "sentence_list" = some (.arr xs) →
      (∀ x ∈ xs.toList, triggerB x = false) →
      (∃ x ∈ xs.toList, badTextB x = true) →
      extractVal decode (.str s) = "") ∧
    (∀ s kvs xs, s ≠ "" → decode s = some (.obj kvs) →
      kvs.lookup "sentence_list" = some (.arr xs) →
      (∀ x ∈ xs.toList, triggerB x = false ∧ badTextB x = false) →
      extractVal decode (.str s) = String.intercalate " " (sentTexts xs.toList)) := by
  refine ⟨?_, ?_, ?_, ?_, ?_, ?_, ?_⟩
  · intro v h
    cases v with
    | str s => exact absurd h (by simp [isStrB])
    | null => rfl
    | bool b => cases b <;> rfl
    | num n => by_cases hn : n = 0 <;> simp [extractVal, falsyJ, hn]
    | arr xs => cases xs <;> rfl
    | obj kvs => cases kvs <;> rfl
  · intro s hd
    by_cases hs : s = "" <;> simp [extractVal, falsyJ, hs, hd]
  · intro s c hs hd hno
    exact extractVal_nonobj decode s c hd hno
  · intro s kvs sl hs hd hl hna
    exact extractVal_obj_nonarr decode s kvs sl hs hd hl hna
  · intro s kvs xs hs hd hl ht
    exact extractVal_trigger decode s kvs xs hs hd hl ht
  · intro s kvs xs hs hd hl hnt hbad
    exact extractVal_badtext decode s kvs xs hs hd hl hnt hbad
  · intro s kvs xs hs hd hl hb
    exact extractStr_benign decode s kvs xs hs hd hl hb

/-- Witness for the amended claim C9: a non-string cache, a scalar sentence
list, and the mixed benign list of the counterexample document. -/
theorem claim_C9_witness :
    extractVal decMix (J.num 5) = "" ∧
    extractVal decMix (J.str cacheMix) =
      String.intercalate " " (sentTexts (jlist [J.str "abc", jmap [("text", J.str "hi")]]).toList) :=
  ⟨(claim_C9_extractor_totality decMix).1 (J.num 5) rfl,
   (claim_C9_extractor_totality decMix).2.2.2.2.2.2 cacheMix
     (jobj [("sentence_list", jarr [J.str "abc", jmap [("text", J.str "hi")]])])
     (jlist [J.str "abc", jmap [("text", J.str "hi")]])
     (by decide) rfl rfl (by decide)⟩

end CapCut
